import Mathlib

/-!
Shallow embedding of the runner-supervisor core of the ollama daemon
(packages `llm` in `server.go` and the payload/variant-selection file),
together with theorems checking the specification's claims against it.

Conventions:
* Go `int`/`int64` arithmetic is modelled on `Int`; Go's integer division
  truncates toward zero, which is `Int.tdiv`.  (64-bit overflow is out of
  scope for the quantities involved.)
* Go strings are Lean `String`s; byte-level primitives (`bytes.HasPrefix`,
  `bytes.Contains`, `strings.Split`, ...) are re-implemented as executable
  functions on `List Char` so that every definition evaluates by `decide`.
* The float millisecond timings of the completion protocol are modelled as
  exact rationals; `parseDurationMs` converts milliseconds to nanoseconds
  exactly, abstracting from binary-float rounding.
-/

namespace Ollama

/-! ### Byte-string primitives (models of package bytes / strings helpers) -/

/-- Model of `bytes.HasPrefix` on character lists. -/
def hasPfx : List Char → List Char → Bool
  | [], _ => true
  | _ :: _, [] => false
  | a :: as, b :: bs => a == b && hasPfx as bs

/-- Model of `bytes.Contains`: does `pat` occur as a contiguous substring? -/
def containsSub (pat : List Char) : List Char → Bool
  | [] => pat.isEmpty
  | c :: rest => hasPfx pat (c :: rest) || containsSub pat rest

/-- Model of `strings.HasSuffix` on character lists. -/
def hasSfx (pat l : List Char) : Bool := hasPfx pat.reverse l.reverse

/-- Model of `strings.Split(s, "_")[0]`: the characters before the first
underscore. -/
def famChars : List Char → List Char
  | [] => []
  | c :: cs => if c == '_' then [] else c :: famChars cs

/-- The library family of a variant tag (text before the first `_`). -/
def libFamily (s : String) : List Char := famChars s.data

/-- Byte-wise (here: scalar-value-wise) lexicographic `≤` used to model
`slices.Sort` on ASCII variant tags. -/
def strLeB : List Char → List Char → Bool
  | [], _ => true
  | _ :: _, [] => false
  | a :: as, b :: bs => if a.toNat = b.toNat then strLeB as bs else Nat.blt a.toNat b.toNat

/-- Insertion step of the sort modelling `slices.Sort`. -/
def insertStr (x : String) : List String → List String
  | [] => [x]
  | y :: ys => if strLeB x.data y.data then x :: y :: ys else y :: insertStr x ys

/-- Deterministic sort modelling `slices.Sort` over string tags.  Only the
fact that it permutes its input is used by the theorems below. -/
def sortStrs : List String → List String
  | [] => []
  | x :: xs => insertStr x (sortStrs xs)

/-! ### Variant selection (`serversForGpu`, payload file lines 88-151)

`available()` is modelled by the list of its keys (variant tags found in the
working directory); a Go map has unordered iteration, but every use of the
map in `serversForGpu` is order-insensitive (membership tests and a sorted
collection), so the function is deterministic in the key set.
`gpu.GetCPUVariant()` is the `cpuVariant` parameter. -/

/-- The requested tag: `library`, or `library_variant` when the probed
variant is non-empty (`server.go` companion file, lines 93-96). -/
def requestedTag (library variant : String) : String :=
  if variant ≠ "" then library ++ "_" ++ variant else library

/-- The sorted alternates: every other available tag of the same library
family as the probed library, excluding the requested tag (payload file,
lines 113-124). -/
def altServers (avail : List String) (library requested : String) : List String :=
  sortStrs (avail.filter (fun a => libFamily a == library.data && !(a == requested)))

/-- Model of `serversForGpu` (payload file, lines 88-151). -/
def serversForGpu (avail : List String) (library variant cpuVariant : String) : List String :=
  let requested := requestedTag library variant
  let exact := avail.contains requested
  let servers0 : List String := if exact then [requested] else []
  if exact && requested == "metal" then servers0
  else
    let alt := if library ≠ "cpu" then altServers avail library requested else []
    let servers1 := servers0 ++ alt
    let servers2 :=
      if library ≠ "cpu" then
        if cpuVariant ≠ "" then
          if avail.contains ("cpu_" ++ cpuVariant) then servers1 ++ ["cpu_" ++ cpuVariant]
          else servers1
        else servers1 ++ ["cpu"]
      else servers1
    if servers2.isEmpty then ["cpu"] else servers2

/-! ### Layer planner (`NewLlamaServer`, `server.go` lines 51-132)

The GGML accessors (`DecodeGGML` and its methods) are not part of the core
source; the model descriptor fields they return are carried in `GGMLInfo`
and left arbitrary.  `gpu.GetGPUInfo`/`gpu.CheckVRAM`/`gpu.GetCPUVariant`
are likewise inputs (`library`, `variant`, `deviceCount`, `vram`,
`cpuVariant`). -/

/-- Model descriptor fields read by `NewLlamaServer`. -/
structure GGMLInfo where
  size : Int
  numCtx : Int
  numLayers : Int
  numEmbed : Int
  numHead : Int
  numHeadKv : Int
  numGQA : Int
deriving DecidableEq

/-- Context clamping (`server.go` lines 51-58): reduce to the model maximum
when above it, then raise to 4 when below 4 (in that order). -/
def clampNumCtx (numCtxOpt maxCtx : Int) : Int :=
  let n := if numCtxOpt > maxCtx then maxCtx else numCtxOpt
  if n < 4 then 4 else n

/-- KV cache estimate (`server.go` line 64). -/
def kvSize (g : GGMLInfo) (numCtx : Int) : Int :=
  Int.tdiv (2 * 2 * numCtx * g.numLayers * g.numEmbed * g.numHeadKv) g.numHead

/-- Compute-graph overhead estimate (`server.go` line 69). -/
def graphSize (g : GGMLInfo) (kv : Int) : Int :=
  Int.tdiv (g.numGQA * kv) 6

/-- The OS switch of `NewLlamaServer` (lines 72-132): finalizes
`(NumGPU, library, variant)` from the probe and the caller's `NumGPU`. -/
def planLayers (goos : String) (g : GGMLInfo) (numGPUOpt : Int)
    (library variant cpuVariant : String) (deviceCount vram kv graph : Int) :
    Int × String × String :=
  if goos = "darwin" then
    if numGPUOpt = 0 then (numGPUOpt, library, variant)
    else if g.size + kv + graph > vram then (0, "cpu", cpuVariant)
    else (999, library, variant)
  else
    if library = "cpu" then (0, library, variant)
    else if numGPUOpt = 0 then (0, "cpu", cpuVariant)
    else if numGPUOpt ≠ -1 then (numGPUOpt, library, variant)
    else
      let maxlayers := g.numLayers + 1
      let avg := Int.tdiv vram deviceCount
      let layers0 := Int.tdiv (maxlayers * (avg - graph)) (kv + Int.tdiv g.size deviceCount)
      let layers := if layers0 > maxlayers then maxlayers else layers0
      let mn := graph + Int.tdiv (kv * layers) maxlayers
      if layers ≤ 0 ∨ mn > avg then (0, "cpu", cpuVariant)
      else (layers, library, variant)

/-- Result of the planning slice of `NewLlamaServer`. -/
structure PlanResult where
  numCtx : Int
  numGPU : Int
  library : String
  variant : String
deriving DecidableEq

/-- The planning slice of `NewLlamaServer` end to end: context clamp, memory
estimates, then the OS switch. -/
def plannerResult (goos : String) (g : GGMLInfo) (numCtxOpt numGPUOpt : Int)
    (library variant cpuVariant : String) (deviceCount vram : Int) : PlanResult :=
  let numCtx := clampNumCtx numCtxOpt g.numCtx
  let kv := kvSize g numCtx
  let graph := graphSize g kv
  let t := planLayers goos g numGPUOpt library variant cpuVariant deviceCount vram kv graph
  ⟨numCtx, t.1, t.2.1, t.2.2⟩

/-! ### Adapter / projector configuration (`server.go` lines 134-136, 179-187) -/

/-- The adapter/projector handling of `NewLlamaServer`: more than one LoRA
adapter is a configuration error (line 134); otherwise the first adapter and
the first projector (if any) are forwarded as `--lora` / `--mmproj`
arguments (lines 179-187).  The unrelated parameters are omitted. -/
def loraProjectorParams (adapters projectors : List String) : Except String (List String) :=
  if adapters.length > 1 then
    Except.error "ollama supports only one lora adapter, but multiple were provided"
  else
    Except.ok
      ((match adapters with
        | [] => []
        | a :: _ => ["--lora", a]) ++
       (match projectors with
        | [] => []
        | p :: _ => ["--mmproj", p]))

/-! ### Completion streaming (`server.go` lines 325-496)

`json.Unmarshal` is external; it is a parameter `decode` from the payload
text (after the `data: ` marker) to the decoded `completion` struct.  The
callback `fn` is modelled by collecting the `CompletionResponse` values
passed to it, in order. -/

/-- The `Timings` part of the runner's `completion` event. -/
structure Timings where
  predictedN : Int
  predictedMS : Rat
  promptN : Int
  promptMS : Rat
deriving DecidableEq

/-- The decoded `completion` stream event (`server.go` lines 333-345). -/
structure CompletionData where
  content : String
  stop : Bool
  timings : Timings
deriving DecidableEq

/-- Model of `parseDurationMs` (`server.go` lines 636-643): a float
millisecond count becomes a `time.Duration` in nanoseconds; on exact
rationals this is multiplication by 10^6. -/
def parseDurationMs (ms : Rat) : Rat := ms * 1000000

/-- A `CompletionResponse` value passed to the caller's callback: either a
content chunk or the terminal done event (`server.go` lines 462-475). -/
inductive CompletionEvent where
  | content (s : String)
  | done (promptEvalCount : Int) (promptEvalDuration : Rat)
         (evalCount : Int) (evalDuration : Rat)
deriving DecidableEq

/-- The terminal event built from a `stop:true` completion
(`server.go` lines 469-475). -/
def doneEvent (c : CompletionData) : CompletionEvent :=
  CompletionEvent.done c.timings.promptN (parseDurationMs c.timings.promptMS)
    c.timings.predictedN (parseDurationMs c.timings.predictedMS)

/-- The slot-busy signal test (`server.go` line 447). -/
def slotBusy (l : String) : Bool := containsSub "slot unavailable".data l.data

/-- Model of `bytes.CutPrefix(line, pre)`. -/
def cutPfx (pre l : String) : Option String :=
  if hasPfx pre.data l.data then some (String.mk (l.data.drop pre.data.length)) else none

/-- Classification of one scanned line, in the order the loop body tests it
(`server.go` lines 441-460). -/
inductive LineStep where
  | skip
  | busy
  | malformed
  | badJson (payload : String)
  | event (c : CompletionData)
deriving DecidableEq

/-- One iteration of the scan loop body over a line. -/
def lineStep (decode : String → Option CompletionData) (l : String) : LineStep :=
  if l = "" then LineStep.skip
  else if slotBusy l then LineStep.busy
  else
    match cutPfx "data: " l with
    | none => LineStep.malformed
    | some evt =>
      match decode evt with
      | none => LineStep.badJson evt
      | some c => LineStep.event c

/-- How the scan loop ended: `eof b` means the scanner was exhausted with
the `retryNeeded` flag at `b`. -/
inductive ScanOutcome where
  | success
  | eof (retryNeeded : Bool)
  | malformedErr (l : String)
  | unmarshalErr (payload : String)
deriving DecidableEq

/-- The scan loop (`server.go` lines 435-479) over the remaining lines,
given the current value of the `retryNeeded` flag.  The `break` on a
slot-busy line (line 449) exits only the enclosing `select`, not the scan
loop, so a busy line merely sets `retryNeeded = true` and scanning
continues with the next line; the flag is only examined once the scanner is
exhausted.  Returns the events delivered to the callback and how the loop
ended. -/
def scanLines (decode : String → Option CompletionData) :
    List String → Bool → List CompletionEvent × ScanOutcome
  | [], retryNeeded => ([], ScanOutcome.eof retryNeeded)
  | l :: rest, retryNeeded =>
    match lineStep decode l with
    | LineStep.skip => scanLines decode rest retryNeeded
    | LineStep.busy => scanLines decode rest true
    | LineStep.malformed => ([], ScanOutcome.malformedErr l)
    | LineStep.badJson p => ([], ScanOutcome.unmarshalErr p)
    | LineStep.event c =>
      let evts := if c.content ≠ "" then [CompletionEvent.content c.content] else []
      if c.stop then (evts ++ [doneEvent c], ScanOutcome.success)
      else
        let r := scanLines decode rest retryNeeded
        (evts ++ r.1, r.2)

/-- Scanner error state once the line stream is exhausted (`scanner.Err()`,
`server.go` lines 481-487): `none` is a clean EOF. -/
inductive ScanErr where
  | unexpectedEOF
  | other (msg : String)
deriving DecidableEq

/-- One HTTP response of the completion endpoint, as the stream loop sees
it: status code, error body (read when the status is an error), the scanned
lines, and the scanner's terminal error state. -/
structure Response where
  status : Nat
  errorBody : String
  lines : List String
  scanErr : Option ScanErr

/-- Errors `Completion` can return. -/
inductive CompletionError where
  | httpError (body : String)
  | streamMalformed (l : String)
  | unmarshal (payload : String)
  | runnerExited
  | readError (msg : String)
  | maxRetriesExceeded
deriving DecidableEq

/-- How one attempt of the retry loop ended. -/
inductive AttemptOut where
  | ok
  | retry
  | err (e : CompletionError)
deriving DecidableEq

/-- One attempt of the retry loop (`server.go` lines 399-491): the HTTP
status check, then the scan loop started with `retryNeeded = false`, then —
reached only when the scanner was exhausted — the `scanner.Err()` check
(lines 481-487), and only after it the `retryNeeded` test (lines
489-491). -/
def completionAttempt (decode : String → Option CompletionData) (r : Response) :
    List CompletionEvent × AttemptOut :=
  if r.status ≥ 400 then ([], AttemptOut.err (CompletionError.httpError r.errorBody))
  else
    let s := scanLines decode r.lines false
    match s.2 with
    | ScanOutcome.success => (s.1, AttemptOut.ok)
    | ScanOutcome.malformedErr l => (s.1, AttemptOut.err (CompletionError.streamMalformed l))
    | ScanOutcome.unmarshalErr p => (s.1, AttemptOut.err (CompletionError.unmarshal p))
    | ScanOutcome.eof retryNeeded =>
      match r.scanErr with
      | some ScanErr.unexpectedEOF => (s.1, AttemptOut.err CompletionError.runnerExited)
      | some (ScanErr.other m) => (s.1, AttemptOut.err (CompletionError.readError m))
      | none =>
        if retryNeeded then (s.1, AttemptOut.retry) else (s.1, AttemptOut.ok)

/-- `maxRetries` (`server.go` line 326). -/
def maxRetries : Nat := 3

/-- The retry loop of `Completion` (`server.go` lines 392-495).  `fuel` is
the number of loop iterations still permitted (`maxRetries - retries`), `i`
the index of the attempt this iteration makes, `delay` the current
`retryDelay` in microseconds (seeded at 100).  Mirroring the loop head
(lines 394-397), an iteration with `i > 0` first sleeps `delay` and doubles
it, then makes its attempt.  Returns the events delivered across all
attempts, the list of sleeps performed (in microseconds), and the final
error (`none` is success). -/
def completionRun (decode : String → Option CompletionData) (responses : Nat → Response) :
    Nat → Nat → Nat → List CompletionEvent × List Nat × Option CompletionError
  | 0, _, _ => ([], [], some CompletionError.maxRetriesExceeded)
  | fuel + 1, i, delay =>
    let sleeps0 : List Nat := if 0 < i then [delay] else []
    let delay2 := if 0 < i then 2 * delay else delay
    let a := completionAttempt decode (responses i)
    match a.2 with
    | AttemptOut.ok => (a.1, sleeps0, none)
    | AttemptOut.err e => (a.1, sleeps0, some e)
    | AttemptOut.retry =>
      let r := completionRun decode responses fuel (i + 1) delay2
      (a.1 ++ r.1, sleeps0 ++ r.2.1, r.2.2)

/-- `Completion`, modelled over the sequence of responses the runner gives
to the successive POST attempts. -/
def CompletionTop (decode : String → Option CompletionData) (responses : Nat → Response) :
    List CompletionEvent × List Nat × Option CompletionError :=
  completionRun decode responses maxRetries 0 100

/-- The content events produced by a list of decoded completions: one per
non-empty `content` field, in order. -/
def contentEvents (cs : List CompletionData) : List CompletionEvent :=
  cs.filterMap (fun c => if c.content = "" then none else some (CompletionEvent.content c.content))

/-! ### Process spawn and health wait (`server.go` lines 226-295)

A Go channel value is either `nil` (the zero value of a channel field) or
an initialized channel.  Sends and receives on a nil channel block forever,
so a receive on a nil channel is never ready.  An initialized channel is
modelled by the tick at which a receive on it would complete, if any. -/

/-- A Go `chan α` value. -/
inductive GoChan (α : Type) where
  | nil
  | initialized (ready : Nat → Option α)

/-- Whether a receive on the channel completes at tick `t`, and with what
value.  A nil channel is never ready (Go: receiving from a nil channel
blocks forever). -/
def GoChan.recvReady : GoChan α → Nat → Option α
  | GoChan.nil, _ => none
  | GoChan.initialized f, t => f t

/-- The `LlamaServer` fields relevant to startup supervision. -/
structure LlamaServerModel where
  port : Int
  done : GoChan (Option String)

/-- The struct literal of `NewLlamaServer` (`server.go` lines 226-229): it
sets `port` and `cmd` only, so the `done` field keeps Go's zero value for a
channel, which is nil — no `make` ever runs for it. -/
def mkLlamaServer (port : Int) : LlamaServerModel :=
  { port := port, done := GoChan.nil }

/-- Result of `waitUntilRunning`. -/
inductive WaitResult where
  | terminated (e : Option String)
  | timeout
  | ready
deriving DecidableEq

/-- Number of 200 ms ticks in the 3-minute health budget. -/
def expiryTicks : Nat := 900

/-- Model of `waitUntilRunning` (`server.go` lines 271-295) as a tick loop:
at each 200 ms tick the select first checks whether `done` is ready (its
case returns the exit cause), then the ticker case checks the deadline and
pings.  `ping t` tells whether the `HEAD /` ping at tick `t` gets a 200. -/
def waitUntilRunningModel (done : GoChan (Option String)) (ping : Nat → Bool) :
    Nat → Nat → WaitResult
  | 0, _ => WaitResult.timeout
  | fuel + 1, t =>
    match done.recvReady t with
    | some e => WaitResult.terminated e
    | none =>
      if t > expiryTicks then WaitResult.timeout
      else if ping t then WaitResult.ready
      else waitUntilRunningModel done ping fuel (t + 1)

/-- `waitUntilRunning` run from the first tick with enough fuel to reach the
deadline (the fuel-0 artifact is never reached: tick 901 returns timeout). -/
def waitUntilRunningTop (done : GoChan (Option String)) (ping : Nat → Bool) : WaitResult :=
  waitUntilRunningModel done ping (expiryTicks + 1) 1

/-! ### Payload extraction (`Init` / `extractFiles`, payload file lines 27-58
and 159-237)

The filesystem is a list of (path, contents) bindings, newest first; paths
are segment lists (the `/`-separated components).  `gzip` decompression is
an abstract function `gunzip`.  The `errgroup` parallelism of
`extractFiles` is modelled as left-to-right sequential extraction; the
idempotence argument only needs that a destination, once present, is
skipped (`os.Stat` then `ErrNotExist` check, lines 218-231). -/

/-- A path as its `/`-separated segments. -/
abbrev GoPath := List String

/-- An embedded payload entry. -/
structure EmbeddedFile where
  path : GoPath
  content : String
deriving DecidableEq

/-- The extracted-files store: path to contents, newest binding first. -/
abbrev FileSystem := List (GoPath × String)

/-- Whether `p` exists in the store (`os.Stat` succeeding). -/
def fsHas (fs : FileSystem) (p : GoPath) : Bool :=
  fs.any (fun e => e.1 == p)

/-- Model of `filepath.Base` on segment paths. -/
def pathBase (p : GoPath) : String := p.getLastD "."

/-- Model of `filepath.Dir` on segment paths. -/
def pathDir (p : GoPath) : GoPath := p.dropLast

/-- The variant tag of an embedded file (payload file lines 182-186):
`Base(Dir(Dir(path)))`, with one more `Dir` on windows. -/
def variantOf (goos : String) (p : GoPath) : String :=
  if goos = "windows" then pathBase (pathDir (pathDir (pathDir p)))
  else pathBase (pathDir (pathDir p))

/-- Strip a trailing `.gz` (lines 198-204). -/
def stripGz (name : String) : String :=
  if hasSfx ".gz".data name.data then String.mk (name.data.take (name.data.length - 3))
  else name

/-- Replace the first occurrence of `pat` in a character list by `rep`
(model of `strings.Replace(s, pat, rep, 1)`). -/
def replaceFirstChars (pat rep : List Char) : List Char → List Char
  | [] => []
  | c :: cs =>
    if hasPfx pat (c :: cs) then rep ++ (c :: cs).drop pat.length
    else c :: replaceFirstChars pat rep cs

/-- Replace the first occurrence of `pat` across a segment path (the
pattern `server` cannot span a `/`, so the string-level replace acts inside
the first segment that contains it). -/
def replaceFirstSeg (pat rep : List Char) : GoPath → GoPath
  | [] => []
  | s :: ss =>
    if containsSub pat s.data then String.mk (replaceFirstChars pat rep s.data) :: ss
    else s :: replaceFirstSeg pat rep ss

/-- Destination path of one embedded file (lines 178-214): the variant is
computed from the original name, the `.gz` suffix is stripped before taking
the base, the file lands in `<targetDir>/<variant>/<base>`, and the first
occurrence of `server` in the joined path is renamed to
`ollama_llama_server`. -/
def destOf (goos : String) (targetDir : GoPath) (ef : EmbeddedFile) : GoPath :=
  let variant := variantOf goos ef.path
  let base := pathBase (stripGz (pathBase ef.path) :: [])
  replaceFirstSeg "server".data "ollama_llama_server".data (targetDir ++ [variant, base])

/-- Contents written for one embedded file: decompressed when the name ends
in `.gz`. -/
def extractContent (gunzip : String → String) (ef : EmbeddedFile) : String :=
  if hasSfx ".gz".data (pathBase ef.path).data then gunzip ef.content else ef.content

/-- Extraction of one file (lines 190-233): skip when the destination
already exists, else write it. -/
def extractOne (gunzip : String → String) (goos : String) (targetDir : GoPath)
    (fs : FileSystem) (ef : EmbeddedFile) : FileSystem :=
  let dest := destOf goos targetDir ef
  if fsHas fs dest then fs else (dest, extractContent gunzip ef) :: fs

/-- Segment-wise glob matching: a `*` segment matches any one segment;
other segments are literal.  This covers every pattern `Init` uses. -/
def globSegMatch (pat seg : String) : Bool := pat == "*" || pat == seg

/-- Model of `fs.Glob` for the segment-wise patterns of `Init`. -/
def globMatch (pat : GoPath) (path : GoPath) : Bool :=
  pat.length == path.length && (List.zip pat path).all (fun e => globSegMatch e.1 e.2)

/-- Model of `extractFiles` (lines 159-237): glob the embedded tree, fail
with the payload-missing error when nothing matches, else extract each
match in order. -/
def extractFiles (gunzip : String → String) (goos : String) (embedded : List EmbeddedFile)
    (targetDir : GoPath) (glob : GoPath) (fs : FileSystem) : Except String FileSystem :=
  let files := embedded.filter (fun ef => globMatch glob ef.path)
  if files.isEmpty then Except.error "expected payloads not included in this build of ollama"
  else Except.ok (files.foldl (extractOne gunzip goos targetDir) fs)

/-- The metal-shader glob (line 32). -/
def metalGlob : GoPath := ["build", "*", "*", "*", "bin", "ggml-metal.metal.gz"]

/-- The server-binaries glob (lines 40-45). -/
def binGlob (goos : String) : GoPath :=
  if goos = "windows" then ["build", "windows", "*", "*", "bin", "*", "*"]
  else ["build", "*", "*", "*", "bin", "*"]

/-- Model of `Init` (lines 27-58): on darwin/arm64 first extract the metal
shader, then extract the server binaries; each pass failing fails `Init`. -/
def payloadInit (gunzip : String → String) (goos goarch : String)
    (embedded : List EmbeddedFile) (targetDir : GoPath) (fs : FileSystem) :
    Except String FileSystem :=
  let afterMetal : Except String FileSystem :=
    if goos = "darwin" ∧ goarch = "arm64" then
      extractFiles gunzip goos embedded targetDir metalGlob fs
    else Except.ok fs
  match afterMetal with
  | Except.error e => Except.error e
  | Except.ok fs1 => extractFiles gunzip goos embedded targetDir (binGlob goos) fs1

/-! ## Theorems -/

/-! ### C4 — context clamping -/

/-- C4 (counterexample): with a model whose reported max context is 2 and a
requested context of 8192, the clamp first reduces to 2 and then raises to
4, so the context actually used (4) exceeds the model's reported max
context (2) — refuting the claim that the used `NumCtx` never exceeds the
model's max. -/
theorem clampNumCtx_exceeds_max_counterexample :
    clampNumCtx 8192 2 = 4 ∧ ¬ ((4 : Int) ≤ 2) := by
  constructor
  · rfl
  · decide

/-- C4 (amended): provided the model's reported max context is at least 4,
the context is clamped into `[4, maxCtx]`: above the max it becomes the max
(with a warning), below 4 it becomes 4, and in range it is unchanged. -/
theorem clampNumCtx_spec (numCtxOpt maxCtx : Int) (h : 4 ≤ maxCtx) :
    4 ≤ clampNumCtx numCtxOpt maxCtx ∧
    clampNumCtx numCtxOpt maxCtx ≤ maxCtx ∧
    (maxCtx < numCtxOpt → clampNumCtx numCtxOpt maxCtx = maxCtx) ∧
    (numCtxOpt < 4 → clampNumCtx numCtxOpt maxCtx = 4) ∧
    (4 ≤ numCtxOpt → numCtxOpt ≤ maxCtx → clampNumCtx numCtxOpt maxCtx = numCtxOpt) := by
  simp only [clampNumCtx]
  split_ifs <;> omega

/-- Witness for `clampNumCtx_spec` at `numCtxOpt = 8192`, `maxCtx = 2048`. -/
theorem clampNumCtx_spec_witness :
    (4 : Int) ≤ 2048 ∧
    (4 ≤ clampNumCtx 8192 2048 ∧
     clampNumCtx 8192 2048 ≤ 2048 ∧
     ((2048 : Int) < 8192 → clampNumCtx 8192 2048 = 2048) ∧
     ((8192 : Int) < 4 → clampNumCtx 8192 2048 = 4) ∧
     ((4 : Int) ≤ 8192 → (8192 : Int) ≤ 2048 → clampNumCtx 8192 2048 = 8192)) :=
  ⟨by decide, clampNumCtx_spec 8192 2048 (by decide)⟩

/-! ### C3 — layer planner range and fit -/

/-- C3 (counterexample): a caller-set `NumGPU = 7` on a 3-layer model is
honored verbatim on a non-darwin OS (`server.go` lines 103-105), so the
finalized `NumGPU` is 7, outside `{0, …, L+1} ∪ {999} = {0, …, 4, 999}` —
refuting the claim that the finalized value always lies in that set. -/
theorem planLayers_caller_set_out_of_range_counterexample :
    (planLayers "linux" ⟨1000, 2048, 3, 4, 4, 4, 1⟩ 7 "cuda" "" "avx2" 1 0 0 0).1 = 7 ∧
    ¬ (((0 : Int) ≤ 7 ∧ (7 : Int) ≤ (⟨1000, 2048, 3, 4, 4, 4, 1⟩ : GGMLInfo).numLayers + 1) ∨
       (7 : Int) = 999) := by
  constructor
  · rfl
  · decide

/-- C3 (amended): whenever the caller left `NumGPU` at `-1` (auto) or `0`
(CPU only) — or the OS is darwin, which re-plans any caller value — the
planner finalizes `NumGPU` into `{0, …, L+1} ∪ {999}`, and whenever the
finalized value is positive the planner's own fit arithmetic holds: on
darwin, `size + kv + graph ≤ vram` (and the value is 999); elsewhere (the
auto path), `graph + kv·layers/maxlayers ≤ avg` with `layers > 0`. -/
theorem planLayers_auto_range (goos : String) (g : GGMLInfo) (numGPUOpt : Int)
    (library variant cpuVariant : String) (deviceCount vram kv graph : Int)
    (hL : 0 ≤ g.numLayers)
    (hopts : numGPUOpt = -1 ∨ numGPUOpt = 0 ∨ goos = "darwin") :
    ((0 ≤ (planLayers goos g numGPUOpt library variant cpuVariant deviceCount vram kv graph).1 ∧
      (planLayers goos g numGPUOpt library variant cpuVariant deviceCount vram kv graph).1 ≤
        g.numLayers + 1) ∨
     (planLayers goos g numGPUOpt library variant cpuVariant deviceCount vram kv graph).1 = 999) ∧
    (0 < (planLayers goos g numGPUOpt library variant cpuVariant deviceCount vram kv graph).1 →
      (goos = "darwin" →
        (planLayers goos g numGPUOpt library variant cpuVariant deviceCount vram kv graph).1 = 999 ∧
        g.size + kv + graph ≤ vram) ∧
      (goos ≠ "darwin" →
        graph + Int.tdiv
            (kv * (planLayers goos g numGPUOpt library variant cpuVariant deviceCount vram kv graph).1)
            (g.numLayers + 1) ≤
          Int.tdiv vram deviceCount)) := by
  simp only [planLayers]
  split_ifs with hd h0 hfit hcpu h0' hne hc1 hc2 hc3 <;> dsimp only <;>
    first
      | exact ⟨Or.inl (by omega), fun hpos => absurd hpos (by omega)⟩
      | exact ⟨Or.inr rfl, fun _ => ⟨fun _ => ⟨rfl, by omega⟩, fun hnd => absurd hd hnd⟩⟩
      | exact ⟨Or.inl (by omega), fun hpos => ⟨fun hdar => absurd hdar hd, fun _ => by omega⟩⟩
      | simp_all

/-- Witness for `planLayers_auto_range` on the auto path of a CUDA host:
8 GiB of VRAM, a 4-layer 4096-wide model of 4 GB. -/
theorem planLayers_auto_range_witness :
    (0 : Int) ≤ (⟨4000000000, 4096, 4, 4096, 32, 32, 1⟩ : GGMLInfo).numLayers ∧
    ((-1 : Int) = -1 ∨ (-1 : Int) = 0 ∨ "linux" = "darwin") ∧
    (((0 ≤ (planLayers "linux" ⟨4000000000, 4096, 4, 4096, 32, 32, 1⟩ (-1) "cuda" "v12" "avx2" 1
          8000000000 100000000 20000000).1 ∧
       (planLayers "linux" ⟨4000000000, 4096, 4, 4096, 32, 32, 1⟩ (-1) "cuda" "v12" "avx2" 1
          8000000000 100000000 20000000).1 ≤
         (⟨4000000000, 4096, 4, 4096, 32, 32, 1⟩ : GGMLInfo).numLayers + 1) ∨
      (planLayers "linux" ⟨4000000000, 4096, 4, 4096, 32, 32, 1⟩ (-1) "cuda" "v12" "avx2" 1
          8000000000 100000000 20000000).1 = 999) ∧
     (0 < (planLayers "linux" ⟨4000000000, 4096, 4, 4096, 32, 32, 1⟩ (-1) "cuda" "v12" "avx2" 1
          8000000000 100000000 20000000).1 →
       ("linux" = "darwin" →
         (planLayers "linux" ⟨4000000000, 4096, 4, 4096, 32, 32, 1⟩ (-1) "cuda" "v12" "avx2" 1
            8000000000 100000000 20000000).1 = 999 ∧
         (⟨4000000000, 4096, 4, 4096, 32, 32, 1⟩ : GGMLInfo).size + 100000000 + 20000000 ≤
           8000000000) ∧
       ("linux" ≠ "darwin" →
         20000000 + Int.tdiv
             (100000000 *
               (planLayers "linux" ⟨4000000000, 4096, 4, 4096, 32, 32, 1⟩ (-1) "cuda" "v12" "avx2" 1
                  8000000000 100000000 20000000).1)
             ((⟨4000000000, 4096, 4, 4096, 32, 32, 1⟩ : GGMLInfo).numLayers + 1) ≤
           Int.tdiv 8000000000 1))) :=
  ⟨by decide, Or.inl rfl,
    planLayers_auto_range "linux" ⟨4000000000, 4096, 4, 4096, 32, 32, 1⟩ (-1) "cuda" "v12" "avx2" 1
      8000000000 100000000 20000000 (by decide) (Or.inl rfl)⟩

/-! ### C10 — NumGPU = 0 and variant selection inputs -/

/-- C10 (counterexample): on a non-darwin OS with the probe already
reporting library `cpu` (with some variant tag) and a caller-set
`NumGPU = 0`, the first branch of the default case (`server.go` lines
89-93) fires and leaves the variant as probed — it is not rewritten to the
probed CPU flag, refuting the claim that every non-darwin `NumGPU = 0` run
forces `variant` to the CPU flag. -/
theorem planLayers_cpu_probe_variant_kept_counterexample :
    planLayers "linux" ⟨1000, 2048, 3, 4, 4, 4, 1⟩ 0 "cpu" "weird" "avx2" 1 0 0 0 =
      (0, "cpu", "weird") ∧ "weird" ≠ "avx2" := by
  constructor
  · rfl
  · decide

/-- C10 (amended): on darwin a caller-set `NumGPU = 0` leaves the probed
library and variant unchanged (a metal runner may still be selected with
zero offloaded layers); on every other OS a caller-set `NumGPU = 0` forces
`library = "cpu"` with `variant` set to the probed CPU flag whenever the
probed library was not already `"cpu"`; when it was, library and variant
are left as probed (and `NumGPU` stays 0). -/
theorem planLayers_numGPU_zero (goos : String) (g : GGMLInfo)
    (library variant cpuVariant : String) (deviceCount vram kv graph : Int) :
    planLayers "darwin" g 0 library variant cpuVariant deviceCount vram kv graph =
      (0, library, variant) ∧
    (goos ≠ "darwin" → library ≠ "cpu" →
      planLayers goos g 0 library variant cpuVariant deviceCount vram kv graph =
        (0, "cpu", cpuVariant)) ∧
    (goos ≠ "darwin" → library = "cpu" →
      planLayers goos g 0 library variant cpuVariant deviceCount vram kv graph =
        (0, library, variant)) := by
  refine ⟨?_, ?_, ?_⟩
  · simp [planLayers]
  · intro hnd hlib
    simp [planLayers, hnd, hlib]
  · intro hnd hlib
    simp [planLayers, hnd, hlib]

/-- Witness for `planLayers_numGPU_zero` at a concrete linux CUDA probe. -/
theorem planLayers_numGPU_zero_witness :
    planLayers "darwin" ⟨1000, 2048, 3, 4, 4, 4, 1⟩ 0 "cuda" "v12" "avx2" 1 0 0 0 =
      (0, "cuda", "v12") ∧
    ("linux" ≠ "darwin" → "cuda" ≠ "cpu" →
      planLayers "linux" ⟨1000, 2048, 3, 4, 4, 4, 1⟩ 0 "cuda" "v12" "avx2" 1 0 0 0 =
        (0, "cpu", "avx2")) ∧
    ("linux" ≠ "darwin" → "cuda" = "cpu" →
      planLayers "linux" ⟨1000, 2048, 3, 4, 4, 4, 1⟩ 0 "cuda" "v12" "avx2" 1 0 0 0 =
        (0, "cuda", "v12")) :=
  planLayers_numGPU_zero "linux" ⟨1000, 2048, 3, 4, 4, 4, 1⟩ "cuda" "v12" "avx2" 1 0 0 0

/-! ### C2 — variant selection -/

/-- Inserting into the sort permutes consing. -/
theorem insertStr_perm (x : String) (l : List String) : (insertStr x l).Perm (x :: l) := by
  induction l with
  | nil => exact List.Perm.refl _
  | cons y ys ih =>
    simp only [insertStr]
    split_ifs
    · exact List.Perm.refl _
    · exact (ih.cons y).trans (List.Perm.swap x y ys)

/-- The sort modelling `slices.Sort` permutes its input. -/
theorem sortStrs_perm (l : List String) : (sortStrs l).Perm l := by
  induction l with
  | nil => exact List.Perm.refl _
  | cons x xs ih => exact (insertStr_perm x (sortStrs xs)).trans (ih.cons x)

/-- A list without underscores is its own library family. -/
theorem famChars_of_not_mem {l : List Char} (h : '_' ∉ l) : famChars l = l := by
  induction l with
  | nil => rfl
  | cons c cs ih =>
    have hc : ¬ c = '_' := fun e => h (e ▸ List.mem_cons_self c cs)
    rw [famChars, if_neg (by simpa using hc), ih fun hm => h (List.mem_cons_of_mem c hm)]

/-- The library family stops at the first underscore. -/
theorem famChars_append_underscore {l1 l2 : List Char} (h : '_' ∉ l1) :
    famChars (l1 ++ '_' :: l2) = l1 := by
  induction l1 with
  | nil => simp [famChars]
  | cons c cs ih =>
    have hc : ¬ c = '_' := fun e => h (e ▸ List.mem_cons_self c cs)
    rw [List.cons_append, famChars, if_neg (by simpa using hc),
      ih fun hm => h (List.mem_cons_of_mem c hm)]

/-- For an underscore-free library name, the requested tag's family is the
library itself. -/
theorem libFamily_requestedTag {library variant : String} (h : '_' ∉ library.data) :
    libFamily (requestedTag library variant) = library.data := by
  rw [requestedTag]
  split_ifs with hv
  · have hu : ("_" : String).data = ['_'] := rfl
    have hd : (library ++ "_" ++ variant).data = library.data ++ '_' :: variant.data := by
      rw [String.data_append, String.data_append, hu, List.append_assoc]
      rfl
    rw [libFamily, hd]
    exact famChars_append_underscore h
  · exact famChars_of_not_mem h

/-- Every `cpu_`-prefixed tag has library family `cpu`. -/
theorem libFamily_cpu_append (v : String) : libFamily ("cpu_" ++ v) = "cpu".data := by
  have hd : ("cpu_" ++ v).data = 'c' :: 'p' :: 'u' :: '_' :: v.data := by
    rw [String.data_append]
    rfl
  rw [libFamily, hd]
  rfl

/-- Strings with different library families differ. -/
theorem ne_of_libFamily_ne {a b : String} (h : libFamily a ≠ libFamily b) : a ≠ b :=
  fun e => h (e ▸ rfl)

/-- Membership facts about the sorted alternates list. -/
theorem mem_alt_facts {avail : List String} {library requested a : String}
    (ha : a ∈ altServers avail library requested) :
    a ∈ avail ∧ libFamily a = library.data ∧ a ≠ requested := by
  rw [altServers, (sortStrs_perm _).mem_iff, List.mem_filter] at ha
  obtain ⟨hmem, hp⟩ := ha
  rw [Bool.and_eq_true, beq_iff_eq, Bool.not_eq_true', beq_eq_false_iff_ne] at hp
  exact ⟨hmem, hp.1, hp.2⟩

/-- The alternates list has no duplicates when the available set has none. -/
theorem altServers_nodup {avail : List String} (library requested : String)
    (hnodup : avail.Nodup) : (altServers avail library requested).Nodup :=
  ((sortStrs_perm _).nodup_iff).mpr (hnodup.filter _)

/-- Duplicate-freedom of a head plus alternates plus CPU-fallback list. -/
theorem nodup_cons_append_singleton {A : List String} {R t : String} (hAnd : A.Nodup)
    (hRA : R ∉ A) (hRt : R ≠ t) (hAt : ∀ a ∈ A, a ≠ t) :
    (R :: (A ++ [t])).Nodup := by
  rw [List.nodup_cons]
  constructor
  · intro hmem
    rcases List.mem_append.mp hmem with hA | ht
    · exact hRA hA
    · exact hRt (List.mem_singleton.mp ht)
  · rw [List.nodup_append]
    exact ⟨hAnd, List.nodup_singleton _, fun a ha hb => hAt a ha (List.mem_singleton.mp hb)⟩

/-- Duplicate-freedom of alternates plus CPU-fallback. -/
theorem nodup_append_singleton {A : List String} {t : String} (hAnd : A.Nodup)
    (hAt : ∀ a ∈ A, a ≠ t) : (A ++ [t]).Nodup := by
  rw [List.nodup_append]
  exact ⟨hAnd, List.nodup_singleton _, fun a ha hb => hAt a ha (List.mem_singleton.mp hb)⟩

/-- The last element of a head-plus-concat list. -/
theorem getLast_cons_append {A : List String} {R t : String} :
    (R :: (A ++ [t])).getLast? = some t := by
  rw [← List.cons_append]
  exact List.getLast?_concat _

/-- C2 (counterexample): for a CUDA probe with CPU flag `avx2` and only the
`cuda` variant available, the claim predicts a final CPU element (`cpu_avx2`
is not available, so it predicts bare `cpu`), but the code appends no CPU
fallback at all when the probed CPU flag is non-empty and its tag is
missing (payload file lines 134-143) — the returned list is just
`["cuda"]`. -/
theorem serversForGpu_no_cpu_fallback_counterexample :
    serversForGpu ["cuda"] "cuda" "" "avx2" = ["cuda"] ∧
    (serversForGpu ["cuda"] "cuda" "" "avx2").getLast? ≠ some "cpu" ∧
    (serversForGpu ["cuda"] "cuda" "" "avx2").getLast? ≠ some ("cpu_" ++ "avx2") := by
  decide

/-- C2 (amended): for a duplicate-free available set and an underscore-free
probed library, `serversForGpu` returns a non-empty, duplicate-free list
whose first element is the exact requested tag whenever that tag is
available.  Whenever the library is not `cpu` and the exact-metal early
return does not fire, the list ends with `cpu_<cpuflag>` when the probed
CPU flag is non-empty and that tag is available, and with bare `cpu` when
the flag is empty; when the flag is non-empty but its tag is unavailable,
no CPU fallback is appended. -/
theorem serversForGpu_spec (avail : List String) (library variant cpuVariant : String)
    (hnodup : avail.Nodup) (hlib : '_' ∉ library.data) :
    serversForGpu avail library variant cpuVariant ≠ [] ∧
    (serversForGpu avail library variant cpuVariant).Nodup ∧
    (requestedTag library variant ∈ avail →
      (serversForGpu avail library variant cpuVariant).head? =
        some (requestedTag library variant)) ∧
    (library ≠ "cpu" →
      ¬(requestedTag library variant = "metal" ∧ requestedTag library variant ∈ avail) →
      (cpuVariant = "" →
        (serversForGpu avail library variant cpuVariant).getLast? = some "cpu") ∧
      (cpuVariant ≠ "" → ("cpu_" ++ cpuVariant) ∈ avail →
        (serversForGpu avail library variant cpuVariant).getLast? =
          some ("cpu_" ++ cpuVariant))) := by
  classical
  by_cases hmm : requestedTag library variant ∈ avail ∧ requestedTag library variant = "metal"
  · have hcond : (avail.contains (requestedTag library variant) &&
        (requestedTag library variant == "metal")) = true := by
      rw [Bool.and_eq_true, beq_iff_eq]
      exact ⟨by simpa using hmm.1, hmm.2⟩
    have hs : serversForGpu avail library variant cpuVariant =
        [requestedTag library variant] := by
      simp only [serversForGpu]
      rw [if_pos hcond,
        if_pos (show avail.contains (requestedTag library variant) = true by simpa using hmm.1)]
    exact ⟨by simp [hs], by simp [hs], fun _ => by simp [hs],
      fun _ hne => absurd ⟨hmm.2, hmm.1⟩ hne⟩
  · have hc1 : ¬ ((avail.contains (requestedTag library variant) &&
        (requestedTag library variant == "metal")) = true) := by
      rw [Bool.and_eq_true, beq_iff_eq]
      rintro ⟨h1, h2⟩
      exact hmm ⟨by simpa using h1, h2⟩
    by_cases hlc : library = "cpu"
    · have hlcn : ¬ (library ≠ "cpu") := fun hn => hn hlc
      by_cases hcon : requestedTag library variant ∈ avail
      · have hs : serversForGpu avail library variant cpuVariant =
            [requestedTag library variant] := by
          simp only [serversForGpu]
          rw [if_neg hc1,
            if_pos (show avail.contains (requestedTag library variant) = true by
              simpa using hcon), if_neg hlcn, if_neg hlcn]
          simp
        exact ⟨by simp [hs], by simp [hs], fun _ => by simp [hs], fun hl _ => absurd hlc hl⟩
      · have hs : serversForGpu avail library variant cpuVariant = ["cpu"] := by
          simp only [serversForGpu]
          rw [if_neg hc1,
            if_neg (show ¬ avail.contains (requestedTag library variant) = true by
              simpa using hcon), if_neg hlcn, if_neg hlcn]
          simp
        exact ⟨by simp [hs], by simp [hs], fun hmem => absurd hmem hcon,
          fun hl _ => absurd hlc hl⟩
    · have hlibne : library.data ≠ "cpu".data := fun e => hlc (String.ext e)
      have hfam : libFamily (requestedTag library variant) = library.data :=
        libFamily_requestedTag hlib
      have hlf_cpu : libFamily "cpu" = "cpu".data := rfl
      have hAnd : (altServers avail library (requestedTag library variant)).Nodup :=
        altServers_nodup _ _ hnodup
      have hRA : requestedTag library variant ∉
          altServers avail library (requestedTag library variant) :=
        fun ha => (mem_alt_facts ha).2.2 rfl
      have hRne_cpu : requestedTag library variant ≠ "cpu" :=
        ne_of_libFamily_ne (by rw [hfam, hlf_cpu]; exact hlibne)
      have hRne_tag : ∀ v, requestedTag library variant ≠ "cpu_" ++ v := fun v =>
        ne_of_libFamily_ne (by rw [hfam, libFamily_cpu_append]; exact hlibne)
      have hAne_cpu : ∀ a ∈ altServers avail library (requestedTag library variant),
          a ≠ "cpu" := fun a ha =>
        ne_of_libFamily_ne (by rw [(mem_alt_facts ha).2.1, hlf_cpu]; exact hlibne)
      have hAne_tag : ∀ v, ∀ a ∈ altServers avail library (requestedTag library variant),
          a ≠ "cpu_" ++ v := fun v a ha =>
        ne_of_libFamily_ne (by rw [(mem_alt_facts ha).2.1, libFamily_cpu_append]; exact hlibne)
      by_cases hcv : cpuVariant = ""
      · have hcvn : ¬ (cpuVariant ≠ "") := fun hn => hn hcv
        by_cases hcon : requestedTag library variant ∈ avail
        · have hs : serversForGpu avail library variant cpuVariant =
              requestedTag library variant ::
                (altServers avail library (requestedTag library variant) ++ ["cpu"]) := by
            simp only [serversForGpu]
            rw [if_neg hc1,
              if_pos (show avail.contains (requestedTag library variant) = true by
                simpa using hcon), if_pos hlc, if_pos hlc, if_neg hcvn]
            simp
          refine ⟨by simp [hs], ?_, fun _ => by rw [hs]; rfl, fun _ _ =>
            ⟨fun _ => by rw [hs]; exact getLast_cons_append, fun hne _ => absurd hcv hne⟩⟩
          rw [hs]
          exact nodup_cons_append_singleton hAnd hRA hRne_cpu hAne_cpu
        · have hs : serversForGpu avail library variant cpuVariant =
              altServers avail library (requestedTag library variant) ++ ["cpu"] := by
            simp only [serversForGpu]
            rw [if_neg hc1,
              if_neg (show ¬ avail.contains (requestedTag library variant) = true by
                simpa using hcon), if_pos hlc, if_pos hlc, if_neg hcvn]
            simp
          refine ⟨by simp [hs], ?_, fun hmem => absurd hmem hcon, fun _ _ =>
            ⟨fun _ => by rw [hs]; exact List.getLast?_concat _, fun hne _ => absurd hcv hne⟩⟩
          rw [hs]
          exact nodup_append_singleton hAnd hAne_cpu
      · by_cases hcpt : ("cpu_" ++ cpuVariant) ∈ avail
        · by_cases hcon : requestedTag library variant ∈ avail
          · have hs : serversForGpu avail library variant cpuVariant =
                requestedTag library variant ::
                  (altServers avail library (requestedTag library variant) ++
                    ["cpu_" ++ cpuVariant]) := by
              simp only [serversForGpu]
              rw [if_neg hc1,
                if_pos (show avail.contains (requestedTag library variant) = true by
                  simpa using hcon), if_pos hlc, if_pos hlc, if_pos hcv,
                if_pos (show avail.contains ("cpu_" ++ cpuVariant) = true by
                  simpa using hcpt)]
              simp
            refine ⟨by simp [hs], ?_, fun _ => by rw [hs]; rfl, fun _ _ =>
              ⟨fun he => absurd he hcv, fun _ _ => by rw [hs]; exact getLast_cons_append⟩⟩
            rw [hs]
            exact nodup_cons_append_singleton hAnd hRA (hRne_tag cpuVariant)
              (hAne_tag cpuVariant)
          · have hs : serversForGpu avail library variant cpuVariant =
                altServers avail library (requestedTag library variant) ++
                  ["cpu_" ++ cpuVariant] := by
              simp only [serversForGpu]
              rw [if_neg hc1,
                if_neg (show ¬ avail.contains (requestedTag library variant) = true by
                  simpa using hcon), if_pos hlc, if_pos hlc, if_pos hcv,
                if_pos (show avail.contains ("cpu_" ++ cpuVariant) = true by
                  simpa using hcpt)]
              simp
            refine ⟨by simp [hs], ?_, fun hmem => absurd hmem hcon, fun _ _ =>
              ⟨fun he => absurd he hcv, fun _ _ => by rw [hs]; exact List.getLast?_concat _⟩⟩
            rw [hs]
            exact nodup_append_singleton hAnd (hAne_tag cpuVariant)
        · by_cases hcon : requestedTag library variant ∈ avail
          · have hs : serversForGpu avail library variant cpuVariant =
                requestedTag library variant ::
                  altServers avail library (requestedTag library variant) := by
              simp only [serversForGpu]
              rw [if_neg hc1,
                if_pos (show avail.contains (requestedTag library variant) = true by
                  simpa using hcon), if_pos hlc, if_pos hlc, if_pos hcv,
                if_neg (show ¬ avail.contains ("cpu_" ++ cpuVariant) = true by
                  simpa using hcpt)]
              simp
            refine ⟨by simp [hs], ?_, fun _ => by rw [hs]; rfl, fun _ _ =>
              ⟨fun he => absurd he hcv, fun _ htag => absurd htag hcpt⟩⟩
            rw [hs, List.nodup_cons]
            exact ⟨hRA, hAnd⟩
          · by_cases hAe : altServers avail library (requestedTag library variant) = []
            · have hs : serversForGpu avail library variant cpuVariant = ["cpu"] := by
                simp only [serversForGpu]
                rw [if_neg hc1,
                  if_neg (show ¬ avail.contains (requestedTag library variant) = true by
                    simpa using hcon), if_pos hlc, if_pos hlc, if_pos hcv,
                  if_neg (show ¬ avail.contains ("cpu_" ++ cpuVariant) = true by
                    simpa using hcpt), hAe]
                simp
              exact ⟨by simp [hs], by simp [hs], fun hmem => absurd hmem hcon, fun _ _ =>
                ⟨fun he => absurd he hcv, fun _ htag => absurd htag hcpt⟩⟩
            · have hs : serversForGpu avail library variant cpuVariant =
                  altServers avail library (requestedTag library variant) := by
                simp only [serversForGpu]
                rw [if_neg hc1,
                  if_neg (show ¬ avail.contains (requestedTag library variant) = true by
                    simpa using hcon), if_pos hlc, if_pos hlc, if_pos hcv,
                  if_neg (show ¬ avail.contains ("cpu_" ++ cpuVariant) = true by
                    simpa using hcpt)]
                simp [hAe]
              exact ⟨by rw [hs]; exact hAe, by rw [hs]; exact hAnd,
                fun hmem => absurd hmem hcon, fun _ _ =>
                ⟨fun he => absurd he hcv, fun _ htag => absurd htag hcpt⟩⟩

/-! ### C6 — adapters and projectors -/

/-- C6 (counterexample): supplying two vision projectors and no adapter is
not rejected — `NewLlamaServer` only guards `len(adapters) > 1`
(`server.go` line 134) and silently forwards the first projector (line
186), refuting the claim that more than one projector yields a
configuration error. -/
theorem multiple_projectors_not_rejected_counterexample :
    loraProjectorParams [] ["proj1", "proj2"] = Except.ok ["--mmproj", "proj1"] := rfl

/-- C6 (amended): more than one LoRA adapter is a configuration error
(before any runner is started); otherwise — for any number of projectors —
the first adapter (if any) is forwarded as `--lora` and the first projector
(if any) as `--mmproj`. -/
theorem loraProjector_spec (adapters projectors : List String) :
    (adapters.length > 1 →
      loraProjectorParams adapters projectors =
        Except.error "ollama supports only one lora adapter, but multiple were provided") ∧
    (adapters.length ≤ 1 →
      loraProjectorParams adapters projectors =
        Except.ok ((adapters.map (fun a => ["--lora", a])).headD [] ++
                   (projectors.map (fun p => ["--mmproj", p])).headD [])) := by
  constructor
  · intro h
    simp [loraProjectorParams, h]
  · intro h
    cases adapters with
    | nil => cases projectors <;> simp [loraProjectorParams]
    | cons a as =>
      cases as with
      | nil => cases projectors <;> simp [loraProjectorParams]
      | cons b bs => simp at h

/-- Witness for `loraProjector_spec`: one adapter and two projectors. -/
theorem loraProjector_spec_witness :
    (["a1"] : List String).length ≤ 1 ∧
    loraProjectorParams ["a1"] ["p1", "p2"] = Except.ok ["--lora", "a1", "--mmproj", "p1"] :=
  ⟨by decide, ((loraProjector_spec ["a1"] ["p1", "p2"]).2 (by decide)).trans (by rfl)⟩

/-- Witness for `serversForGpu_spec` on the spec's S2 scenario:
`available = {cpu, cpu_avx2, cuda_v12}`, probe `cuda/v12`, CPU flag
`avx2`. -/
theorem serversForGpu_spec_witness :
    (["cpu", "cpu_avx2", "cuda_v12"] : List String).Nodup ∧
    '_' ∉ "cuda".data ∧
    (serversForGpu ["cpu", "cpu_avx2", "cuda_v12"] "cuda" "v12" "avx2" ≠ [] ∧
     (serversForGpu ["cpu", "cpu_avx2", "cuda_v12"] "cuda" "v12" "avx2").Nodup ∧
     (requestedTag "cuda" "v12" ∈ ["cpu", "cpu_avx2", "cuda_v12"] →
       (serversForGpu ["cpu", "cpu_avx2", "cuda_v12"] "cuda" "v12" "avx2").head? =
         some (requestedTag "cuda" "v12")) ∧
     ("cuda" ≠ "cpu" →
       ¬(requestedTag "cuda" "v12" = "metal" ∧
         requestedTag "cuda" "v12" ∈ ["cpu", "cpu_avx2", "cuda_v12"]) →
       ("avx2" = "" →
         (serversForGpu ["cpu", "cpu_avx2", "cuda_v12"] "cuda" "v12" "avx2").getLast? =
           some "cpu") ∧
       ("avx2" ≠ "" → ("cpu_" ++ "avx2") ∈ ["cpu", "cpu_avx2", "cuda_v12"] →
         (serversForGpu ["cpu", "cpu_avx2", "cuda_v12"] "cuda" "v12" "avx2").getLast? =
           some ("cpu_" ++ "avx2")))) :=
  ⟨by decide, by decide,
    serversForGpu_spec ["cpu", "cpu_avx2", "cuda_v12"] "cuda" "v12" "avx2"
      (by decide) (by decide)⟩

/-! ### C8 — payload extraction idempotence -/

/-- Writing one more file preserves existing paths. -/
theorem fsHas_extractOne (gunzip : String → String) (goos : String) (targetDir : GoPath)
    (fs : FileSystem) (ef : EmbeddedFile) (p : GoPath) (h : fsHas fs p = true) :
    fsHas (extractOne gunzip goos targetDir fs ef) p = true := by
  rw [extractOne]
  split_ifs with hd
  · exact h
  · simp [fsHas] at h ⊢
    exact Or.inr h

/-- A whole extraction pass preserves existing paths. -/
theorem fsHas_foldl (gunzip : String → String) (goos : String) (targetDir : GoPath)
    (files : List EmbeddedFile) (fs : FileSystem) (p : GoPath) (h : fsHas fs p = true) :
    fsHas (files.foldl (extractOne gunzip goos targetDir) fs) p = true := by
  induction files generalizing fs with
  | nil => exact h
  | cons e0 rest ih => exact ih _ (fsHas_extractOne gunzip goos targetDir fs e0 p h)

/-- After extracting one file its destination exists. -/
theorem fsHas_extractOne_self (gunzip : String → String) (goos : String) (targetDir : GoPath)
    (fs : FileSystem) (ef : EmbeddedFile) :
    fsHas (extractOne gunzip goos targetDir fs ef) (destOf goos targetDir ef) = true := by
  rw [extractOne]
  split_ifs with hd
  · exact hd
  · simp [fsHas]

/-- After an extraction pass, every processed file's destination exists. -/
theorem fsHas_foldl_mem (gunzip : String → String) (goos : String) (targetDir : GoPath) :
    ∀ (files : List EmbeddedFile) (fs : FileSystem) (ef : EmbeddedFile), ef ∈ files →
      fsHas (files.foldl (extractOne gunzip goos targetDir) fs)
        (destOf goos targetDir ef) = true := by
  intro files
  induction files with
  | nil => intro fs ef hef; cases hef
  | cons e0 rest ih =>
    intro fs ef hef
    rcases List.mem_cons.mp hef with rfl | hmem
    · rw [List.foldl_cons]
      exact fsHas_foldl gunzip goos targetDir rest _ _
        (fsHas_extractOne_self gunzip goos targetDir fs ef)
    · rw [List.foldl_cons]
      exact ih _ ef hmem

/-- An extraction pass over files whose destinations all exist is a no-op —
every single extraction hits the skip branch. -/
theorem foldl_extract_noop (gunzip : String → String) (goos : String) (targetDir : GoPath)
    (files : List EmbeddedFile) (fs : FileSystem)
    (h : ∀ ef ∈ files, fsHas fs (destOf goos targetDir ef) = true) :
    files.foldl (extractOne gunzip goos targetDir) fs = fs := by
  induction files with
  | nil => rfl
  | cons e0 rest ih =>
    have h0 : extractOne gunzip goos targetDir fs e0 = fs := by
      rw [extractOne, if_pos (h e0 (List.mem_cons_self _ _))]
    rw [List.foldl_cons, h0]
    exact ih fun ef hef => h ef (List.mem_cons_of_mem _ hef)

/-- Destructuring a successful `extractFiles` run: the glob matched
something and the result is the sequential extraction. -/
theorem extractFiles_ok (gunzip : String → String) (goos : String)
    (embedded : List EmbeddedFile) (targetDir : GoPath) (glob : GoPath)
    (fs fs1 : FileSystem)
    (h : extractFiles gunzip goos embedded targetDir glob fs = Except.ok fs1) :
    ¬ (embedded.filter (fun ef => globMatch glob ef.path)).isEmpty = true ∧
    fs1 = (embedded.filter (fun ef => globMatch glob ef.path)).foldl
      (extractOne gunzip goos targetDir) fs := by
  rw [extractFiles] at h
  split_ifs at h with he
  exact ⟨he, (Except.ok.inj h).symm⟩

/-- A successful `extractFiles` run preserves existing paths. -/
theorem extractFiles_mono (gunzip : String → String) (goos : String)
    (embedded : List EmbeddedFile) (targetDir : GoPath) (glob : GoPath)
    (fs fs1 : FileSystem)
    (h : extractFiles gunzip goos embedded targetDir glob fs = Except.ok fs1)
    (p : GoPath) (hp : fsHas fs p = true) : fsHas fs1 p = true := by
  obtain ⟨_, hf⟩ := extractFiles_ok gunzip goos embedded targetDir glob fs fs1 h
  rw [hf]
  exact fsHas_foldl gunzip goos targetDir _ fs p hp

/-- After a successful `extractFiles` run every matched destination
exists. -/
theorem extractFiles_covers (gunzip : String → String) (goos : String)
    (embedded : List EmbeddedFile) (targetDir : GoPath) (glob : GoPath)
    (fs fs1 : FileSystem)
    (h : extractFiles gunzip goos embedded targetDir glob fs = Except.ok fs1) :
    ∀ ef ∈ embedded.filter (fun ef => globMatch glob ef.path),
      fsHas fs1 (destOf goos targetDir ef) = true := by
  obtain ⟨_, hf⟩ := extractFiles_ok gunzip goos embedded targetDir glob fs fs1 h
  intro ef hef
  rw [hf]
  exact fsHas_foldl_mem gunzip goos targetDir _ fs ef hef

/-- `extractFiles` over a store that already holds every matched
destination succeeds and changes nothing (given the payload is present). -/
theorem extractFiles_noop (gunzip : String → String) (goos : String)
    (embedded : List EmbeddedFile) (targetDir : GoPath) (glob : GoPath)
    (fs : FileSystem)
    (hne : ¬ (embedded.filter (fun ef => globMatch glob ef.path)).isEmpty = true)
    (h : ∀ ef ∈ embedded.filter (fun ef => globMatch glob ef.path),
      fsHas fs (destOf goos targetDir ef) = true) :
    extractFiles gunzip goos embedded targetDir glob fs = Except.ok fs := by
  rw [extractFiles, if_neg hne]
  exact congrArg Except.ok (foldl_extract_noop gunzip goos targetDir _ fs h)

/-- C8: `Init` is idempotent.  If a first run against a working directory
succeeds and produces the store `fs2`, a second run against `fs2` succeeds
and leaves exactly the same store: extraction skips every destination that
already exists, and the first run created every destination its globs
match. -/
theorem payloadInit_idempotent (gunzip : String → String) (goos goarch : String)
    (embedded : List EmbeddedFile) (targetDir : GoPath) (fs fs2 : FileSystem)
    (h : payloadInit gunzip goos goarch embedded targetDir fs = Except.ok fs2) :
    payloadInit gunzip goos goarch embedded targetDir fs2 = Except.ok fs2 := by
  rw [payloadInit] at h ⊢
  split_ifs at h ⊢ with hd
  · rcases hm : extractFiles gunzip goos embedded targetDir metalGlob fs with e | fs1
    all_goals rw [hm] at h
    · cases h
    · have hmetal2 : extractFiles gunzip goos embedded targetDir metalGlob fs2 =
          Except.ok fs2 := by
        refine extractFiles_noop gunzip goos embedded targetDir metalGlob fs2
          (extractFiles_ok gunzip goos embedded targetDir metalGlob fs fs1 hm).1
          fun ef hef => ?_
        exact extractFiles_mono gunzip goos embedded targetDir (binGlob goos) fs1 fs2 h _
          (extractFiles_covers gunzip goos embedded targetDir metalGlob fs fs1 hm ef hef)
      rw [hmetal2]
      exact extractFiles_noop gunzip goos embedded targetDir (binGlob goos) fs2
        (extractFiles_ok gunzip goos embedded targetDir (binGlob goos) fs1 fs2 h).1
        (extractFiles_covers gunzip goos embedded targetDir (binGlob goos) fs1 fs2 h)
  · exact extractFiles_noop gunzip goos embedded targetDir (binGlob goos) fs2
      (extractFiles_ok gunzip goos embedded targetDir (binGlob goos) fs fs2 h).1
      (extractFiles_covers gunzip goos embedded targetDir (binGlob goos) fs fs2 h)

/-- Witness for `payloadInit_idempotent`: one embedded gzip-compressed
`server` binary for the linux/cpu variant, extracted into an empty working
directory and then re-extracted. -/
theorem payloadInit_idempotent_witness :
    payloadInit id "linux" "amd64"
        [⟨["build", "linux", "x86_64", "cpu", "bin", "server.gz"], "bin0"⟩] ["tmp"] [] =
      Except.ok [(["tmp", "cpu", "ollama_llama_server"], "bin0")] ∧
    payloadInit id "linux" "amd64"
        [⟨["build", "linux", "x86_64", "cpu", "bin", "server.gz"], "bin0"⟩] ["tmp"]
        [(["tmp", "cpu", "ollama_llama_server"], "bin0")] =
      Except.ok [(["tmp", "cpu", "ollama_llama_server"], "bin0")] := by
  have h1 : payloadInit id "linux" "amd64"
      [⟨["build", "linux", "x86_64", "cpu", "bin", "server.gz"], "bin0"⟩] ["tmp"] [] =
      Except.ok [(["tmp", "cpu", "ollama_llama_server"], "bin0")] := rfl
  exact ⟨h1,
    payloadInit_idempotent id "linux" "amd64"
      [⟨["build", "linux", "x86_64", "cpu", "bin", "server.gz"], "bin0"⟩] ["tmp"] []
      [(["tmp", "cpu", "ollama_llama_server"], "bin0")] h1⟩

/-! ### C1, C7, C9 — the completion stream -/

/-- Splitting the content events at a list head. -/
theorem contentEvents_cons (c : CompletionData) (cs : List CompletionData) :
    contentEvents (c :: cs) =
      (if c.content ≠ "" then [CompletionEvent.content c.content] else []) ++
        contentEvents cs := by
  by_cases hC : c.content = "" <;> simp [contentEvents, hC]

/-- The scan loop on a stream of decodable `data: ` events: up to the first
`stop:true` event it emits exactly the non-empty contents in order, then
the single terminal done event, and reports success. -/
theorem scanLines_stop_contract (decode : String → Option CompletionData) :
    ∀ (ls : List String) (b : Bool) (cs : List CompletionData) (i : Nat) (hi : i < cs.length),
      ls.length = cs.length →
      (∀ p ∈ List.zip ls cs, lineStep decode p.1 = LineStep.event p.2) →
      (cs.get ⟨i, hi⟩).stop = true →
      (∀ c ∈ cs.take i, c.stop = false) →
      scanLines decode ls b =
        (contentEvents (cs.take (i + 1)) ++ [doneEvent (cs.get ⟨i, hi⟩)],
         ScanOutcome.success) := by
  intro ls
  induction ls with
  | nil =>
    intro b cs i hi hlen _ _ _
    rw [← hlen] at hi
    exact absurd hi (by simp)
  | cons l ls2 ih =>
    intro b cs i hi hlen hwf hstop hfirst
    cases cs with
    | nil => exact absurd hlen (by simp)
    | cons c cs2 =>
      have hl : lineStep decode l = LineStep.event c := hwf (l, c) (by simp)
      cases i with
      | zero =>
        have hcstop : c.stop = true := hstop
        rw [scanLines, hl]
        simp only [hcstop, if_true, ite_true]
        rw [List.take_succ_cons, List.take_zero, contentEvents_cons]
        simp [contentEvents]
      | succ i2 =>
        have hcstop : c.stop = false := hfirst c (by simp [List.take_succ_cons])
        have hrec := ih b cs2 i2 (by simpa using hi) (by simpa using hlen)
          (fun p hp => hwf p (by simp [hp]))
          (by simpa using hstop) (fun x hx => hfirst x (by simp [List.take_succ_cons, hx]))
        rw [scanLines, hl]
        simp only [hcstop, Bool.false_eq_true, if_false, ite_false]
        rw [hrec]
        rw [List.take_succ_cons, contentEvents_cons]
        simp [List.append_assoc]

/-- Unfolding the first iteration of the retry loop (`retries = 0`, no
sleep, `retryDelay = 100`). -/
theorem completionRun_unfold3 (decode : String → Option CompletionData)
    (responses : Nat → Response) :
    completionRun decode responses 3 0 100 =
      (match (completionAttempt decode (responses 0)).2 with
       | AttemptOut.ok => ((completionAttempt decode (responses 0)).1, [], none)
       | AttemptOut.err e => ((completionAttempt decode (responses 0)).1, [], some e)
       | AttemptOut.retry =>
         ((completionAttempt decode (responses 0)).1 ++ (completionRun decode responses 2 1 100).1,
          (completionRun decode responses 2 1 100).2.1,
          (completionRun decode responses 2 1 100).2.2)) := rfl

/-- Unfolding the second iteration (`retries = 1`: sleep 100 µs, double the
delay). -/
theorem completionRun_unfold2 (decode : String → Option CompletionData)
    (responses : Nat → Response) :
    completionRun decode responses 2 1 100 =
      (match (completionAttempt decode (responses 1)).2 with
       | AttemptOut.ok => ((completionAttempt decode (responses 1)).1, [100], none)
       | AttemptOut.err e => ((completionAttempt decode (responses 1)).1, [100], some e)
       | AttemptOut.retry =>
         ((completionAttempt decode (responses 1)).1 ++ (completionRun decode responses 1 2 200).1,
          100 :: (completionRun decode responses 1 2 200).2.1,
          (completionRun decode responses 1 2 200).2.2)) := rfl

/-- Unfolding the third and last iteration (`retries = 2`: sleep 200 µs);
a further retry exhausts the budget. -/
theorem completionRun_unfold1 (decode : String → Option CompletionData)
    (responses : Nat → Response) :
    completionRun decode responses 1 2 200 =
      (match (completionAttempt decode (responses 2)).2 with
       | AttemptOut.ok => ((completionAttempt decode (responses 2)).1, [200], none)
       | AttemptOut.err e => ((completionAttempt decode (responses 2)).1, [200], some e)
       | AttemptOut.retry =>
         ((completionAttempt decode (responses 2)).1 ++ [], [200],
          some CompletionError.maxRetriesExceeded)) := rfl

/-- C1: for every completion stream whose lines are well-formed `data: `
events, with the first `stop:true` at position `i`, `Completion` delivers
exactly one content event per non-empty `content` among the first `i + 1`
events, in stream order, followed by exactly one done event carrying the
four counters computed from the millisecond timings; it then returns
success (no error, and — the stop being on the first attempt — no retry
sleeps), and no event follows the done event. -/
theorem completion_stream_contract (decode : String → Option CompletionData)
    (r : Response) (cs : List CompletionData) (i : Nat) (hi : i < cs.length)
    (hstatus : r.status < 400)
    (hlen : r.lines.length = cs.length)
    (hwf : ∀ p ∈ List.zip r.lines cs, lineStep decode p.1 = LineStep.event p.2)
    (hstop : (cs.get ⟨i, hi⟩).stop = true)
    (hfirst : ∀ c ∈ cs.take i, c.stop = false) :
    CompletionTop decode (fun _ => r) =
      (contentEvents (cs.take (i + 1)) ++ [doneEvent (cs.get ⟨i, hi⟩)], [], none) := by
  have hscan := scanLines_stop_contract decode r.lines false cs i hi hlen hwf hstop hfirst
  have hA : completionAttempt decode r =
      (contentEvents (cs.take (i + 1)) ++ [doneEvent (cs.get ⟨i, hi⟩)], AttemptOut.ok) := by
    rw [completionAttempt, if_neg (Nat.not_le.mpr hstatus)]
    simp [hscan]
  rw [CompletionTop, show maxRetries = 3 from rfl, completionRun_unfold3]
  simp [hA]

/-- Witness for `completion_stream_contract`: a two-event stream whose
second event stops with timings `(3, 5, 7, 9)`. -/
theorem completion_stream_contract_witness :
    CompletionTop
        (fun s => if s = "x" then some ⟨"Hel", false, ⟨0, 0, 0, 0⟩⟩
          else if s = "y" then some ⟨"lo", true, ⟨3, 5, 7, 9⟩⟩ else none)
        (fun _ => ⟨200, "", ["data: x", "data: y"], none⟩) =
      (contentEvents (([⟨"Hel", false, ⟨0, 0, 0, 0⟩⟩,
          ⟨"lo", true, ⟨3, 5, 7, 9⟩⟩] : List CompletionData).take 2) ++
        [doneEvent (([⟨"Hel", false, ⟨0, 0, 0, 0⟩⟩,
          ⟨"lo", true, ⟨3, 5, 7, 9⟩⟩] : List CompletionData).get ⟨1, by decide⟩)],
       [], none) :=
  completion_stream_contract _ _
    [⟨"Hel", false, ⟨0, 0, 0, 0⟩⟩, ⟨"lo", true, ⟨3, 5, 7, 9⟩⟩] 1 (by decide)
    (by decide) (by decide) (by decide) (by decide) (by decide)

/-- The scan loop without any `stop:true` and without busy or malformed
lines reaches the end of the stream with the `retryNeeded` flag unchanged,
having emitted content events only. -/
theorem scanLines_no_stop (decode : String → Option CompletionData) :
    ∀ (ls : List String) (b : Bool),
      (∀ l ∈ ls, lineStep decode l = LineStep.skip ∨
        ∃ c, lineStep decode l = LineStep.event c ∧ c.stop = false) →
      (scanLines decode ls b).2 = ScanOutcome.eof b ∧
      ∀ e ∈ (scanLines decode ls b).1, ∃ s, e = CompletionEvent.content s := by
  intro ls
  induction ls with
  | nil =>
    intro b _
    refine ⟨rfl, ?_⟩
    intro e he
    simp [scanLines] at he
  | cons l ls2 ih =>
    intro b h
    obtain ⟨hout, hevts⟩ := ih b (fun x hx => h x (List.mem_cons_of_mem _ hx))
    rcases h l (List.mem_cons_self _ _) with hskip | ⟨c, hev, hst⟩
    · rw [scanLines, hskip]
      exact ⟨hout, hevts⟩
    · rw [scanLines, hev]
      simp only [hst, Bool.false_eq_true, if_false, ite_false]
      refine ⟨hout, ?_⟩
      intro e he
      by_cases hC : c.content = ""
      · rw [if_neg (fun hne => hne hC), List.nil_append] at he
        exact hevts e he
      · rw [if_pos hC, List.singleton_append] at he
        rcases List.mem_cons.mp he with h1 | h2
        · exact ⟨c.content, h1⟩
        · exact hevts e h2

/-- C9: if the stream ends cleanly (the scanner reaches EOF with no error)
before any `stop:true` event, without slot-busy or malformed lines,
`Completion` returns success even though no done event was ever delivered:
every event the callback received is a content event. -/
theorem completion_clean_eof (decode : String → Option CompletionData) (r : Response)
    (hstatus : r.status < 400)
    (hwf : ∀ l ∈ r.lines, lineStep decode l = LineStep.skip ∨
      ∃ c, lineStep decode l = LineStep.event c ∧ c.stop = false)
    (hscan : r.scanErr = none) :
    (CompletionTop decode (fun _ => r)).2.2 = none ∧
    ∀ e ∈ (CompletionTop decode (fun _ => r)).1, ∃ s, e = CompletionEvent.content s := by
  obtain ⟨hout, hevts⟩ := scanLines_no_stop decode r.lines false hwf
  have hA : completionAttempt decode r = ((scanLines decode r.lines false).1, AttemptOut.ok) := by
    rw [completionAttempt, if_neg (Nat.not_le.mpr hstatus)]
    simp [hout, hscan]
  rw [CompletionTop, show maxRetries = 3 from rfl, completionRun_unfold3]
  simp only [hA]
  exact ⟨by trivial, hevts⟩

/-- Witness for `completion_clean_eof`: a one-content-event stream with no
stop event. -/
theorem completion_clean_eof_witness :
    ((CompletionTop (fun s => if s = "x" then some ⟨"Hel", false, ⟨0, 0, 0, 0⟩⟩ else none)
        (fun _ => ⟨200, "", ["data: x"], none⟩)).2.2 = none ∧
     ∀ e ∈ (CompletionTop (fun s => if s = "x" then some ⟨"Hel", false, ⟨0, 0, 0, 0⟩⟩ else none)
        (fun _ => ⟨200, "", ["data: x"], none⟩)).1, ∃ s, e = CompletionEvent.content s) :=
  completion_clean_eof _ ⟨200, "", ["data: x"], none⟩ (by decide)
    (by
      intro l hl
      rw [List.mem_singleton] at hl
      subst hl
      exact Or.inr ⟨⟨"Hel", false, ⟨0, 0, 0, 0⟩⟩, by decide, rfl⟩)
    rfl

/-- A busy classification means the line contains the slot-busy signal. -/
theorem lineStep_busy (decode : String → Option CompletionData) (l : String)
    (h : lineStep decode l = LineStep.busy) : slotBusy l = true := by
  by_cases h1 : l = ""
  · rw [lineStep, if_pos h1] at h
    cases h
  · by_cases h2 : slotBusy l = true
    · exact h2
    · exfalso
      rcases hc : cutPfx "data: " l with _ | evt
      · simp [lineStep, h1, h2, hc] at h
      · rcases hd : decode evt with _ | c <;> simp [lineStep, h1, h2, hc, hd] at h

/-- The `retryNeeded` flag is raised during a scan only by a line that
contains the slot-busy signal. -/
theorem scanLines_retry_busy (decode : String → Option CompletionData) :
    ∀ (ls : List String) (b : Bool),
      (scanLines decode ls b).2 = ScanOutcome.eof true →
      b = true ∨ ∃ l ∈ ls, slotBusy l = true := by
  intro ls
  induction ls with
  | nil =>
    intro b h
    simp only [scanLines] at h
    exact Or.inl (by simpa using h)
  | cons l ls2 ih =>
    intro b h
    cases hstep : lineStep decode l with
    | skip =>
      rw [scanLines, hstep] at h
      rcases ih b h with hb | ⟨x, hx, hbusy⟩
      · exact Or.inl hb
      · exact Or.inr ⟨x, List.mem_cons_of_mem _ hx, hbusy⟩
    | busy => exact Or.inr ⟨l, List.mem_cons_self _ _, lineStep_busy decode l hstep⟩
    | malformed => rw [scanLines, hstep] at h; cases h
    | badJson p => rw [scanLines, hstep] at h; cases h
    | event c =>
      rw [scanLines, hstep] at h
      by_cases hst : c.stop = true
      · simp [hst] at h
      · simp only [Bool.not_eq_true] at hst
        simp only [hst, Bool.false_eq_true, if_false, ite_false] at h
        rcases ih b h with hb | ⟨x, hx, hbusy⟩
        · exact Or.inl hb
        · exact Or.inr ⟨x, List.mem_cons_of_mem _ hx, hbusy⟩

/-- A single attempt asks for a retry only when some line of its response
contains the slot-busy signal. -/
theorem completionAttempt_retry (decode : String → Option CompletionData) (r : Response)
    (h : (completionAttempt decode r).2 = AttemptOut.retry) :
    ∃ l ∈ r.lines, slotBusy l = true := by
  by_cases hst : r.status ≥ 400
  · rw [completionAttempt, if_pos hst] at h
    cases h
  · rw [completionAttempt, if_neg hst] at h
    rcases hout : (scanLines decode r.lines false).2 with _ | b | l | p
    · simp [hout] at h
    · rcases hse : r.scanErr with _ | se
      · simp only [hout, hse] at h
        cases b with
        | false => simp at h
        | true =>
          rcases scanLines_retry_busy decode r.lines false hout with hb | hbusy
          · cases hb
          · exact hbusy
      · rcases se <;> simp [hout, hse] at h
    · simp [hout] at h
    · simp [hout] at h

/-- An attempt never errors with the retry-budget error: that error is
produced only by the loop itself. -/
theorem completionAttempt_no_budget_error (decode : String → Option CompletionData)
    (r : Response) :
    (completionAttempt decode r).2 ≠ AttemptOut.err CompletionError.maxRetriesExceeded := by
  by_cases hst : r.status ≥ 400
  · rw [completionAttempt, if_pos hst]
    simp
  · rw [completionAttempt, if_neg hst]
    rcases hout : (scanLines decode r.lines false).2 with _ | b | l | p
    · simp [hout]
    · rcases hse : r.scanErr with _ | se
      · cases b <;> simp [hout, hse]
      · rcases se <;> simp [hout, hse]
    · simp [hout]
    · simp [hout]

/-- C7: the retry policy of `Completion`.  The sleeps performed are
`100·2^(k-1)` microseconds before the `k`-th retry, with at most two
retries after the first attempt (three attempts in total); the call returns
the retry-budget error exactly when all three attempts hit the slot-busy
signal; and an attempt asks for a retry only when a line of its response
contains the slot-busy signal — no other condition retries. -/
theorem completion_retry_policy (decode : String → Option CompletionData)
    (responses : Nat → Response) :
    ((CompletionTop decode responses).2.1.length ≤ 2 ∧
     ∀ k (hk : k < (CompletionTop decode responses).2.1.length),
       (CompletionTop decode responses).2.1.get ⟨k, hk⟩ = 100 * 2 ^ k) ∧
    ((CompletionTop decode responses).2.2 = some CompletionError.maxRetriesExceeded ↔
      ∀ i < maxRetries, (completionAttempt decode (responses i)).2 = AttemptOut.retry) ∧
    (∀ i, (completionAttempt decode (responses i)).2 = AttemptOut.retry →
      ∃ l ∈ (responses i).lines, slotBusy l = true) := by
  refine ⟨?_, ?_, fun i => completionAttempt_retry decode (responses i)⟩
  · -- the sleeps performed
    rw [CompletionTop, show maxRetries = 3 from rfl, completionRun_unfold3]
    rcases h0 : (completionAttempt decode (responses 0)).2 with _ | _ | e0
    · simp only [h0]
      exact ⟨by simp, fun k hk => absurd hk (by simp)⟩
    · simp only [h0]
      rw [completionRun_unfold2]
      rcases h1 : (completionAttempt decode (responses 1)).2 with _ | _ | e1
      · simp only [h1]
        refine ⟨by simp, fun k hk => ?_⟩
        simp only [List.length_cons, List.length_nil] at hk
        interval_cases k <;> rfl
      · simp only [h1]
        rw [completionRun_unfold1]
        rcases h2 : (completionAttempt decode (responses 2)).2 with _ | _ | e2
        all_goals
          simp only [h2]
          refine ⟨by simp, fun k hk => ?_⟩
          simp only [List.length_cons, List.length_nil] at hk
          interval_cases k <;> rfl
      · simp only [h1]
        refine ⟨by simp, fun k hk => ?_⟩
        simp only [List.length_cons, List.length_nil] at hk
        interval_cases k <;> rfl
    · simp only [h0]
      exact ⟨by simp, fun k hk => absurd hk (by simp)⟩
  · -- the retry-budget error characterization
    rw [CompletionTop, show maxRetries = 3 from rfl, completionRun_unfold3]
    rcases h0 : (completionAttempt decode (responses 0)).2 with _ | _ | e0
    · simp only [h0]
      refine iff_of_false (by simp) fun hall => ?_
      have h := hall 0 (by decide)
      rw [h0] at h
      cases h
    · simp only [h0]
      rw [completionRun_unfold2]
      rcases h1 : (completionAttempt decode (responses 1)).2 with _ | _ | e1
      · simp only [h1]
        refine iff_of_false (by simp) fun hall => ?_
        have h := hall 1 (by decide)
        rw [h1] at h
        cases h
      · simp only [h1]
        rw [completionRun_unfold1]
        rcases h2 : (completionAttempt decode (responses 2)).2 with _ | _ | e2
        · simp only [h2]
          refine iff_of_false (by simp) fun hall => ?_
          have h := hall 2 (by decide)
          rw [h2] at h
          cases h
        · simp only [h2]
          refine iff_of_true (by trivial) fun i hi => ?_
          simp only [maxRetries] at hi
          interval_cases i
          · exact h0
          · exact h1
          · exact h2
        · simp only [h2]
          refine iff_of_false ?_ fun hall => ?_
          · intro hsome
            exact completionAttempt_no_budget_error decode (responses 2)
              (by rw [h2, Option.some_inj.mp hsome])
          · have h := hall 2 (by decide)
            rw [h2] at h
            cases h
      · simp only [h1]
        refine iff_of_false ?_ fun hall => ?_
        · intro hsome
          exact completionAttempt_no_budget_error decode (responses 1)
            (by rw [h1, Option.some_inj.mp hsome])
        · have h := hall 1 (by decide)
          rw [h1] at h
          cases h
    · simp only [h0]
      refine iff_of_false ?_ fun hall => ?_
      · intro hsome
        exact completionAttempt_no_budget_error decode (responses 0)
          (by rw [h0, Option.some_inj.mp hsome])
      · have h := hall 0 (by decide)
        rw [h0] at h
        cases h

/-- Witness for `completion_retry_policy`: two busy responses, then a clean
stop, exercising two sleeps of 100 and 200 microseconds. -/
theorem completion_retry_policy_witness :
    (CompletionTop (fun s => if s = "y" then some ⟨"", true, ⟨0, 0, 0, 0⟩⟩ else none)
        (fun i => if i < 2 then ⟨200, "", ["slot unavailable"], none⟩
          else ⟨200, "", ["data: y"], none⟩)).2.1.length ≤ 2 :=
  ((completion_retry_policy (fun s => if s = "y" then some ⟨"", true, ⟨0, 0, 0, 0⟩⟩ else none)
      (fun i => if i < 2 then ⟨200, "", ["slot unavailable"], none⟩
        else ⟨200, "", ["data: y"], none⟩)).1).1

/-! ### C5 — the done channel and the health wait -/

/-- Helper: with a nil `done` channel and a ping that never succeeds, the
health wait always ends in timeout — the done case of the select can never
fire. -/
theorem wait_nil_timeout (ping : Nat → Bool) (hping : ∀ t, ping t = false) :
    ∀ fuel t, waitUntilRunningModel GoChan.nil ping fuel t = WaitResult.timeout := by
  intro fuel
  induction fuel with
  | zero => intro t; rfl
  | succ n ih =>
    intro t
    simp only [waitUntilRunningModel, GoChan.recvReady]
    split_ifs with h1 h2
    · rfl
    · exact absurd ((hping t) ▸ h2) (by decide)
    · exact ih (t + 1)

/-- C5 (code-bug evidence): the struct literal of `NewLlamaServer`
(`server.go` lines 226-229) sets only `port` and `cmd`, so the `done` field
keeps Go's zero value — a nil channel.  The exit-watcher goroutine's send
`s.done <- s.cmd.Wait()` blocks forever on that nil channel, and the
`<-s.done` case of `waitUntilRunning`'s select (line 280) can never fire.
Hence even when the child exits at once and the health ping never succeeds,
`waitUntilRunning` runs through the whole 3-minute budget and reports a
timeout instead of the exit cause — contradicting the field's own comment
("Channel to signal when the process exits") and the claim. -/
theorem done_nil_never_signals (ping : Nat → Bool) (hping : ∀ t, ping t = false) :
    (mkLlamaServer 12345).done = GoChan.nil ∧
    (∀ t, (mkLlamaServer 12345).done.recvReady t = none) ∧
    waitUntilRunningTop (mkLlamaServer 12345).done ping = WaitResult.timeout := by
  refine ⟨rfl, fun t => rfl, ?_⟩
  exact wait_nil_timeout ping hping (expiryTicks + 1) 1

/-- Witness for `done_nil_never_signals`: a ping that constantly fails. -/
theorem done_nil_never_signals_witness :
    (mkLlamaServer 12345).done = GoChan.nil ∧
    (∀ t, (mkLlamaServer 12345).done.recvReady t = none) ∧
    waitUntilRunningTop (mkLlamaServer 12345).done (fun _ => false) = WaitResult.timeout :=
  done_nil_never_signals (fun _ => false) (fun _ => rfl)

end Ollama
